import Mathlib

/-!
Verification of the coreset repository's facility registry, BMOR streaming
facility-location, and scale-estimation code (src/facility.rs, src/bmor.rs,
src/scale.rs), shallowly embedded in Lean.

Modelling conventions:
* `f64` / `f32` values (weights, costs, distances) are embedded as `ℚ`,
  i.e. arithmetic is exact; distances are assumed finite and non-NaN, so
  every distance compares `≤ f32::INFINITY`.
* The distance functional `Dist::eval` is an arbitrary function
  `List T → List T → ℚ` stored in the registry, as in the Rust struct.
* Randomness (the `Xoshiro256PlusPlus` generator) is passed in as an
  explicit oracle: the uniform draw `u` of `BmorState::update` is a
  parameter, and the index streams of `get_neighborhood_size` are a
  function from anchor to its list of raw draws.
* Fallible operations (`anyhow::Result`, panicking indexing, `unwrap`)
  are embedded with `Except`/`Option`.
* `Arc<RwLock<...>>` interior mutability becomes explicit state passing:
  an update through the lock is an update of the list element in place.
-/

/-- Decidable equality on `Except`, so that concrete runs of the embedded
fallible operations can be checked by `decide`. -/
instance {ε α : Type} [DecidableEq ε] [DecidableEq α] : DecidableEq (Except ε α)
  | Except.ok a, Except.ok b =>
      if h : a = b then isTrue (by rw [h])
      else isFalse (by intro hc; cases hc; exact h rfl)
  | Except.error a, Except.error b =>
      if h : a = b then isTrue (by rw [h])
      else isFalse (by intro hc; cases hc; exact h rfl)
  | Except.ok _, Except.error _ => isFalse (by intro hc; cases hc)
  | Except.error _, Except.ok _ => isFalse (by intro hc; cases hc)

namespace Coreset

/-- Rust `f64::trunc`: rounding toward zero, on the exact rationals. -/
def f64trunc (q : ℚ) : ℤ := if 0 ≤ q then ⌊q⌋ else -⌊-q⌋

/-- Rust `as usize` on a (truncated) float: saturating cast, negative
values clamp to zero. -/
def usizeOfInt (i : ℤ) : ℕ := i.toNat

/-- `Facility` (facility.rs lines 26-36): a tentative center, storing the
rank of the data point it is centered on, the center coordinates, the
accumulated weight and the accumulated cost. -/
structure Facility (T : Type) where
  d_rank : ℕ
  center : List T
  weight : ℚ
  cost : ℚ
deriving Repr, DecidableEq

/-- `Facility::new` (facility.rs lines 47-49): weight and cost start at 0. -/
def Facility.new {T : Type} (d_rank : ℕ) (center : List T) : Facility T :=
  { d_rank := d_rank, center := center, weight := 0, cost := 0 }

/-- `Facility::insert` (facility.rs lines 73-76):
`weight += weight; cost += dist * weight`. -/
def Facility.insert {T : Type} (f : Facility T) (weight : ℚ) (dist : ℚ) :
    Facility T :=
  { f with weight := f.weight + weight, cost := f.cost + dist * weight }

/-- `Facilities` (facility.rs lines 91-95): the ordered registry of
facilities together with the distance functional. -/
structure Facilities (T : Type) where
  centers : List (Facility T)
  distance : List T → List T → ℚ

/-- `Facilities::new` (facility.rs lines 100-103): empty registry (the
`size` argument is only a capacity hint). -/
def Facilities.new {T : Type} (_size : ℕ) (distance : List T → List T → ℚ) :
    Facilities T :=
  { centers := [], distance := distance }

/-- `Facilities::len` (facility.rs lines 106-108). -/
def Facilities.len {T : Type} (fs : Facilities T) : ℕ :=
  fs.centers.length

/-- `Facilities::clear` (facility.rs lines 117-119). -/
def Facilities.clear {T : Type} (fs : Facilities T) : Facilities T :=
  { fs with centers := [] }

/-- `Facilities::insert` (facility.rs lines 141-145): push at the end. -/
def Facilities.insert {T : Type} (fs : Facilities T) (f : Facility T) :
    Facilities T :=
  { fs with centers := fs.centers ++ [f] }

/-- `Facilities::get_facility` (facility.rs lines 149-156):
`None` when `rank >= len`, else the facility stored at `rank`. -/
def Facilities.get_facility {T : Type} (fs : Facilities T) (rank : ℕ) :
    Option (Facility T) :=
  if h : fs.centers.length ≤ rank then none
  else some (fs.centers.get ⟨rank, lt_of_not_ge h⟩)

/-- `Facilities::get_cloned_facility` (facility.rs lines 160-167): same
bound check, returning a clone of the stored facility. -/
def Facilities.get_cloned_facility {T : Type} (fs : Facilities T) (rank : ℕ) :
    Option (Facility T) :=
  if h : fs.centers.length ≤ rank then none
  else some (fs.centers.get ⟨rank, lt_of_not_ge h⟩)

/-- The loop of `Facilities::get_nearest_facility` (facility.rs lines
178-186), scanning the remaining facilities from index `i` with the
running `(dist, rank_f)` accumulator; the update fires on `d_i <= dist`. -/
def scanNearest {T : Type} (distf : List T → List T → ℚ) (data : List T) :
    List (Facility T) → ℕ → ℚ × ℕ → ℚ × ℕ
  | [], _, acc => acc
  | f :: rest, i, acc =>
      let d_i := distf f.center data
      if d_i ≤ acc.1 then scanNearest distf data rest (i + 1) (d_i, i)
      else scanNearest distf data rest (i + 1) acc

/-- `Facilities::get_nearest_facility` (facility.rs lines 171-189).
The Rust loop starts from `dist = f32::INFINITY`, `rank_f = -1`; since
every (non-NaN) distance satisfies `d_0 <= INFINITY` the first iteration
always loads `(d_0, 0)`, which is the accumulator we start the scan of the
tail with. On an empty registry the error `"Empty facility"` is returned. -/
def Facilities.get_nearest_facility {T : Type} (fs : Facilities T)
    (data : List T) : Except String (ℕ × ℚ) :=
  match fs.centers with
  | [] => Except.error "Empty facility"
  | c :: rest =>
      let res := scanNearest fs.distance data rest 1 (fs.distance c.center data, 0)
      Except.ok (res.2, res.1)

/-- `f64::abs`, written with an executable conditional (extensionally equal
to Mathlib's `|·|` on `ℚ`, see `qabs_eq_abs`). -/
def qabs (q : ℚ) : ℚ := if q < 0 then -q else q

/-- In-place update of the list element at a given index (the effect of a
write through the `Arc<RwLock<Facility>>` handle at that rank); indices
past the end leave the list unchanged. -/
def modifyAt {α : Type} (g : α → α) : List α → ℕ → List α
  | [], _ => []
  | a :: l, 0 => g a :: l
  | a :: l, n + 1 => a :: modifyAt g l n

/-- `BmorState` (bmor.rs lines 25-48).  The `rng` and `unif` fields are
not part of the state here: the uniform draws they produce are passed to
`update` as an explicit oracle argument. -/
structure BmorState (T : Type) where
  oneplogn : ℕ
  phase : ℕ
  li : ℚ
  phase_cost_upper : ℚ
  facility_bound : ℕ
  centers : Facilities T
  absolute_weight : ℚ
  total_cost : ℚ
  nb_inserted : ℕ

/-- `BmorState::new` (bmor.rs lines 53-60).  `nbdata.ilog2()` is
`⌊log₂ nbdata⌋` (Rust panics at `nbdata = 0`; `Nat.log2` agrees on all
`nbdata ≥ 1`). -/
def BmorState.new {T : Type} (k nbdata phase _alloc_size : ℕ)
    (upper_cost : ℚ) (facility_bound : ℕ)
    (distance : List T → List T → ℚ) : BmorState T :=
  { oneplogn := (1 + Nat.log2 nbdata) * k
    phase := phase
    li := 1
    phase_cost_upper := upper_cost
    facility_bound := facility_bound
    centers := Facilities.new _alloc_size distance
    absolute_weight := 0
    total_cost := 0
    nb_inserted := 0 }

/-- `BmorState::get_nearest_center` (bmor.rs lines 103-115): `None` on an
empty registry, otherwise the nearest facility (identified by its rank,
which is what the returned `Arc` handle designates) and the distance. -/
def BmorState.get_nearest_center {T : Type} (st : BmorState T)
    (point : List T) : Option (ℕ × ℚ) :=
  if st.centers.len = 0 then none
  else
    match st.centers.get_nearest_facility point with
    | Except.error _ => none
    | Except.ok rd => some rd

/-- `BmorState::update` (bmor.rs lines 120-161), with the uniform draw
`u` of `get_unif_sample` passed in as an oracle.  `none` models the
`process::exit(1)` taken when no nearest facility exists.  If
`u < weight * d * oneplogn / li` a new facility is pushed, built by
`Facility::new` followed by `insert(weight, dist_to_nearest)`; otherwise
the nearest facility is updated in place and
`total_cost += |weight| * dist`.  Both branches then add `|weight|` to
`absolute_weight`, bump `nb_inserted`, and the constraint check decides
the returned flag. -/
def BmorState.update {T : Type} (st : BmorState T) (u : ℚ) (rank_id : ℕ)
    (point : List T) (weight : ℚ) : Option (BmorState T × Bool) :=
  match st.get_nearest_center point with
  | none => none
  | some (rank, dist_to_nearest) =>
      let st1 :=
        if u < weight * dist_to_nearest * (st.oneplogn : ℚ) / st.li then
          let new_f := (Facility.new rank_id point).insert weight dist_to_nearest
          { st with centers := st.centers.insert new_f }
        else
          { st with
              centers := { st.centers with
                centers := modifyAt (fun f => f.insert weight dist_to_nearest)
                  st.centers.centers rank }
              total_cost := st.total_cost + qabs weight * dist_to_nearest }
      let st2 := { st1 with
          absolute_weight := st1.absolute_weight + qabs weight
          nb_inserted := st1.nb_inserted + 1 }
      if st2.total_cost > st2.phase_cost_upper ∨
          st2.centers.len > st2.facility_bound then
        some (st2, false)
      else
        some (st2, true)

/-- `BmorState::reinit` (bmor.rs lines 165-172). -/
def BmorState.reinit {T : Type} (st : BmorState T) (li : ℚ)
    (phase_cost_upper : ℚ) : BmorState T :=
  { st with
      phase := st.phase + 1
      phase_cost_upper := phase_cost_upper
      li := li
      centers := st.centers.clear
      absolute_weight := 0
      total_cost := 0 }

/-- `Bmor` (bmor.rs lines 187-200). -/
structure Bmor (T : Type) where
  k : ℕ
  nbdata_expected : ℕ
  beta : ℚ
  gamma : ℚ
  distance : List T → List T → ℚ

/-- `Bmor::new` (bmor.rs lines 210-213). -/
def Bmor.new {T : Type} (k nbdata : ℕ) (beta gamma : ℚ)
    (distance : List T → List T → ℚ) : Bmor T :=
  { k := k, nbdata_expected := nbdata, beta := beta, gamma := gamma
    distance := distance }

/-- The state constructed at the top of `Bmor::process_block`
(bmor.rs lines 216-221):
`nb_centers_bound = (γ * (1 + ilog2 n) * k).trunc() as usize`,
`upper_cost = γ`, and the `BmorState::new` call with phase 0. -/
def Bmor.init_state {T : Type} (b : Bmor T) : BmorState T :=
  let nb_centers_bound := usizeOfInt (f64trunc
    (b.gamma * (1 + (Nat.log2 b.nbdata_expected : ℚ)) * (b.k : ℚ)))
  let upper_cost := b.gamma
  BmorState.new b.k b.nbdata_expected 0 nb_centers_bound upper_cost
    nb_centers_bound b.distance

/-- `Bmor::add_data` (bmor.rs lines 262-279): on an empty registry a
facility is opened by `Facility::new` + `insert(weight, 0.)` and the
aggregates are updated (`absolute_weight += weight`, without `abs`, as in
the source); otherwise the point goes through `BmorState::update`. -/
def Bmor.add_data {T : Type} (_b : Bmor T) (st : BmorState T) (u : ℚ)
    (rank_id : ℕ) (data : List T) (weight : ℚ) :
    Option (BmorState T × Bool) :=
  if st.centers.len ≤ 0 then
    let new_f := (Facility.new rank_id data).insert weight 0
    some ({ st with
              centers := st.centers.insert new_f
              nb_inserted := st.nb_inserted + 1
              absolute_weight := st.absolute_weight + weight }, true)
  else
    st.update u rank_id data weight

/-- The weight used by `dispatch_data` for point `item`
(facility.rs line 236): 1 when no weights are given, else
`weights[item]` (`none` models the index panic). -/
def weightAt (weights : Option (List ℚ)) (item : ℕ) : Option ℚ :=
  match weights with
  | none => some 1
  | some ws => ws.get? item

/-- The reset loop of `dispatch_data` / `dispatch_labels`
(facility.rs lines 227-231 and 276-279): zero every facility's cost and
weight. -/
def resetCounters {T : Type} (fs : Facilities T) : Facilities T :=
  { fs with centers := fs.centers.map (fun f => { f with cost := 0, weight := 0 }) }

/-- The per-point body of `dispatch_data` (facility.rs lines 233-243),
iterated over the point indices (the `rayon` parallel loop commutes with
this sequential order because each step only adds to one facility's two
counters): nearest facility, weight of the point, then
`facility.weight += weight; facility.cost += dist * weight`. -/
def dispatchDataGo {T : Type} (data : List (List T))
    (weights : Option (List ℚ)) :
    List ℕ → Facilities T → Option (Facilities T)
  | [], fs => some fs
  | item :: items, fs =>
      match data.get? item with
      | none => none
      | some p =>
          match fs.get_nearest_facility p with
          | Except.error _ => none
          | Except.ok (facility, dist) =>
              match weightAt weights item with
              | none => none
              | some weight =>
                  let newCenters :=
                    modifyAt (fun f => f.insert weight dist) fs.centers facility
                  dispatchDataGo data weights items { fs with centers := newCenters }

/-- `Facilities::dispatch_data` (facility.rs lines 219-256): checks
`assert_eq!(data.len(), weights.len())`, zeroes all facility counters,
dispatches every point to its nearest facility, and returns the global
cost summed over the facilities, together with the updated registry. -/
def Facilities.dispatch_data {T : Type} (fs : Facilities T)
    (data : List (List T)) (weights : Option (List ℚ)) :
    Option (ℚ × Facilities T) :=
  match weights with
  | some ws =>
      if ws.length = data.length then
        match dispatchDataGo data weights (List.range data.length)
            (resetCounters fs) with
        | none => none
        | some fs1 => some ((fs1.centers.map Facility.cost).sum, fs1)
      else none
  | none =>
      match dispatchDataGo data weights (List.range data.length)
          (resetCounters fs) with
      | none => none
      | some fs1 => some ((fs1.centers.map Facility.cost).sum, fs1)

/-- Histogram update of `dispatch_labels` (facility.rs lines 297-305):
increment the count of the label if present, else insert it with count 1
(the `HashMap` is embedded as an association list). -/
def bumpLabel {L : Type} [DecidableEq L] :
    List (L × ℕ) → L → List (L × ℕ)
  | [], lab => [(lab, 1)]
  | (l, c) :: rest, lab =>
      if l = lab then (l, c + 1) :: rest else (l, c) :: bumpLabel rest lab

/-- The per-point body of `dispatch_labels` (facility.rs lines 285-306),
iterated over the point indices.  Note the source reads the point's
weight as `weights.unwrap()[itemf]` where `itemf` is the rank of the
nearest *facility* (facility.rs line 289), not the point index `i`. -/
def dispatchLabelsGo {T L : Type} [DecidableEq L] (data : List (List T))
    (labels : List L) (weights : Option (List ℚ)) :
    List ℕ → Facilities T → List (List (L × ℕ)) →
    Option (Facilities T × List (List (L × ℕ)))
  | [], fs, dists => some (fs, dists)
  | i :: is, fs, dists =>
      match data.get? i with
      | none => none
      | some p =>
          match fs.get_nearest_facility p with
          | Except.error _ => none
          | Except.ok (itemf, dist) =>
              match weightAt weights itemf with
              | none => none
              | some weight =>
                  match labels.get? i with
                  | none => none
                  | some lab =>
                      let newCenters :=
                        modifyAt (fun f => f.insert weight dist) fs.centers itemf
                      let dists1 := modifyAt (fun m => bumpLabel m lab) dists itemf
                      dispatchLabelsGo data labels weights is
                        { fs with centers := newCenters } dists1

/-- `Facilities::dispatch_labels` (facility.rs lines 266-359), up to the
accumulation of counters and label histograms: checks
`assert_eq!(data.len(), labels.len())`, zeroes all facility counters,
allocates one empty histogram per facility, and dispatches every point.
The subsequent per-facility entropy computation (lines 321-351) involves
the transcendental `ln` and is outside this embedding; the claims below
concern the accumulation. -/
def Facilities.dispatch_labels {T L : Type} [DecidableEq L]
    (fs : Facilities T) (data : List (List T)) (labels : List L)
    (weights : Option (List ℚ)) :
    Option (Facilities T × List (List (L × ℕ))) :=
  if data.length = labels.length then
    dispatchLabelsGo data labels weights (List.range data.length)
      (resetCounters fs) (List.replicate fs.centers.length [])
  else none

/-- `nb_sample` of `get_neighborhood_size` (scale.rs line 50):
`(nbdata as f32).sqrt().trunc() as usize`, i.e. the integer square root
`⌊√nbdata⌋` (the `f32` square root of an exactly representable `nbdata`
truncated toward zero). -/
def nbSampleScale (nbdata : ℕ) : ℕ := Nat.sqrt nbdata

/-- The inner sampling loop of `explore` (scale.rs lines 53-62): redraw
from the per-anchor random stream until the draw differs from the anchor
`i`, collecting `nb_sample` accepted draws.  `draws` is the raw stream of
uniform draws on `[0, nbdata)`, of which the first `nb_sample` ones that
differ from `i` are kept. -/
def anchorSamples (i : ℕ) (draws : List ℕ) (nb_sample : ℕ) : List ℕ :=
  (draws.filter (fun j => j != i)).take nb_sample

/-- The distance vector `dvec` collected by `explore` for anchor `i`
(scale.rs lines 53-62): distance from `data[i]` to `data[j]` for each
accepted draw `j`.  Draw indices are in `[0, data.len())` by
construction of the uniform sampler, so `getD` never takes its default. -/
def anchorDists {T : Type} (distf : List T → List T → ℚ)
    (data : List (List T)) (i : ℕ) (js : List ℕ) : List ℚ :=
  js.map (fun j => distf (data.getD i []) (data.getD j []))

/-- `explore` (scale.rs lines 51-65): collect `nb_sample` distances from
anchor `i` to randomly drawn distinct points, sort them ascending
(`sort_unstable_by` with the `≤` comparator), and return `(dvec[0],
dvec[1])`; `none` models the index panic when fewer than two distances
exist. -/
def explore {T : Type} (distf : List T → List T → ℚ)
    (data : List (List T)) (nb_sample i : ℕ) (draws : List ℕ) :
    Option (ℚ × ℚ) :=
  let dvec := anchorDists distf data i (anchorSamples i draws nb_sample)
  match dvec.insertionSort (· ≤ ·) with
  | d0 :: d1 :: _ => some (d0, d1)
  | _ => none

/-- Collect the per-iteration results of a loop whose body can panic
(`none` aborts the whole run, as a panic does). -/
def collectSome {α β : Type} (f : α → Option β) : List α → Option (List β)
  | [] => some []
  | x :: xs =>
      match f x, collectSome f xs with
      | some y, some ys => some (y :: ys)
      | _, _ => none

/-- `get_neighborhood_size` (scale.rs lines 42-85): one `explore` call
per anchor `i` in `0..nb_sample` (each anchor reseeds its own rng, here
the oracle `streams i`), collecting `(first, second)`
nearest-neighbor-distance pairs; the function returns `q2_dist`, the
quantile sketch of the second-nearest distances, embedded as the list of
values inserted into it (scale.rs lines 72-75, 84). -/
def get_neighborhood_size {T : Type} (distf : List T → List T → ℚ)
    (data : List (List T)) (streams : ℕ → List ℕ) : Option (List ℚ) :=
  let nb_sample := nbSampleScale data.length
  match collectSome (fun i => explore distf data nb_sample i (streams i))
      (List.range nb_sample) with
  | none => none
  | some dist_2 => some (dist_2.map Prod.snd)

/-- `⌈√n⌉`.  Modelled from the spec: the spec's `neighborhood_radii`
description says the estimator samples `⌈√n⌉` anchors; this definition is
only used to compare the spec's words with the code's `⌊√n⌋`. -/
def specCeilSqrt (n : ℕ) : ℕ :=
  if Nat.sqrt n * Nat.sqrt n = n then Nat.sqrt n else Nat.sqrt n + 1

/-- One-dimensional L1 distance on rational points, used for the concrete
registries below. -/
def dQ (a b : List ℚ) : ℚ := qabs (a.headD 0 - b.headD 0)

/-- Two facilities whose centers coincide: the registry used to exhibit
the tie-breaking of `get_nearest_facility`. -/
def tieFs : Facilities ℚ :=
  Facilities.mk [Facility.new 0 [0], Facility.new 1 [0]] dQ

/-- A one-facility BMOR state (center `[0]`, `oneplogn = 1`, `li = 1`,
generous cost and facility bounds), used to evaluate
`BmorState::update` on concrete inputs. -/
def bmorStateOne : BmorState ℚ :=
  { oneplogn := 1
    phase := 0
    li := 1
    phase_cost_upper := 100
    facility_bound := 10
    centers := Facilities.mk [Facility.new 0 [0]] dQ
    absolute_weight := 0
    total_cost := 0
    nb_inserted := 0 }

/-- A BMOR state with nonzero running aggregates (`nb_inserted = 5`),
used to evaluate `BmorState::reinit` on a concrete input. -/
def bmorStateAgg : BmorState ℚ :=
  { oneplogn := 4
    phase := 2
    li := 3
    phase_cost_upper := 5
    facility_bound := 7
    centers := Facilities.mk [Facility.new 0 [0]] dQ
    absolute_weight := 9
    total_cost := 11
    nb_inserted := 5 }

/-- Two facilities at `[10]` and `[0]`: the registry used to evaluate
`dispatch_labels` on a concrete input where the nearest facility's rank
differs from the point's index. -/
def swapFs : Facilities ℚ :=
  Facilities.mk [Facility.new 0 [10], Facility.new 1 [0]] dQ

/-- Five one-dimensional points: the data set used to evaluate
`get_neighborhood_size` on a concrete input (`⌊√5⌋ = 2`, `⌈√5⌉ = 3`). -/
def scaleData : List (List ℚ) := [[0], [1], [2], [3], [10]]

/-- Concrete per-anchor draw streams for `scaleData`: anchor 0 draws
points 1 and 2, anchor 1 draws points 0 and 2 (all draws in
`[0, 5)` and distinct from their anchor). -/
def scaleStreams : ℕ → List ℕ := fun i => if i = 0 then [1, 2] else [0, 2]

/-- The total input weight of a dispatch: each absent weight counts as 1
(facility.rs line 236). -/
def inputWeightSum (weights : Option (List ℚ)) (nbdata : ℕ) : ℚ :=
  match weights with
  | none => (nbdata : ℚ)
  | some ws => ws.sum

end Coreset

namespace Coreset

/-! ## Theorems -/

theorem qabs_eq_abs (q : ℚ) : qabs q = |q| := by
  unfold qabs
  rcases lt_or_le q 0 with h | h
  · rw [if_pos h, abs_of_neg h]
  · rw [if_neg (not_lt.mpr h), abs_of_nonneg h]

/-- C10: `get_facility(rank)` and `get_cloned_facility(rank)` return
`None` exactly when `rank ≥ len()`, and otherwise return the facility
stored at that rank; out-of-range access cannot panic. -/
theorem get_facility_spec {T : Type} (fs : Facilities T) (rank : ℕ) :
    (fs.get_facility rank = none ↔ fs.len ≤ rank) ∧
    (fs.get_cloned_facility rank = none ↔ fs.len ≤ rank) ∧
    ∀ h : rank < fs.len,
      fs.get_facility rank = some (fs.centers.get ⟨rank, h⟩) ∧
      fs.get_cloned_facility rank = some (fs.centers.get ⟨rank, h⟩) := by
  unfold Facilities.get_facility Facilities.get_cloned_facility Facilities.len
  rcases le_or_lt fs.centers.length rank with h | h
  · refine ⟨by simp [h], by simp [h], ?_⟩
    intro h'
    exact absurd h' (not_lt.mpr h)
  · have hn := not_le.mpr h
    refine ⟨by simp [hn], by simp [hn], ?_⟩
    intro h'
    simp [dif_neg hn]

/-- Closed witness for `get_facility_spec` at a one-facility registry and
rank 0. -/
theorem get_facility_spec_witness :
    (Facilities.mk [Facility.new 0 [(0 : ℚ)]] dQ).get_facility 0 =
      some ((Facilities.mk [Facility.new 0 [(0 : ℚ)]] dQ).centers.get
        ⟨0, by decide⟩) ∧
    (Facilities.mk [Facility.new 0 [(0 : ℚ)]] dQ).get_cloned_facility 0 =
      some ((Facilities.mk [Facility.new 0 [(0 : ℚ)]] dQ).centers.get
        ⟨0, by decide⟩) :=
  (get_facility_spec (Facilities.mk [Facility.new 0 [(0 : ℚ)]] dQ) 0).2.2
    (by decide)

/-- C9: `get_nearest_facility` returns an error exactly when the registry
is empty; on a non-empty registry it always returns a (rank, distance)
pair (returned through the `Result`, never a panic). -/
theorem get_nearest_facility_error_iff {T : Type} (fs : Facilities T)
    (data : List T) :
    ((∃ e, fs.get_nearest_facility data = Except.error e) ↔
      fs.centers = []) ∧
    (fs.centers ≠ [] →
      ∃ r d, fs.get_nearest_facility data = Except.ok (r, d)) := by
  unfold Facilities.get_nearest_facility
  cases h : fs.centers with
  | nil => exact ⟨by simp, fun hne => absurd rfl hne⟩
  | cons c rest =>
      refine ⟨by simp, fun _ => ?_⟩
      exact ⟨_, _, rfl⟩

/-- Closed witness for `get_nearest_facility_error_iff` on a concrete
two-facility registry. -/
theorem get_nearest_facility_error_iff_witness :
    ∃ r d, tieFs.get_nearest_facility [(3 : ℚ)] = Except.ok (r, d) :=
  (get_nearest_facility_error_iff tieFs [3]).2 (by simp [tieFs])

/-- C5 counterexample: `reinit` does **not** zero `nb_inserted` — on a
state with `nb_inserted = 5` the field still holds 5 after `reinit`
(the source, bmor.rs lines 165-172, resets `absolute_weight` and
`total_cost` only; `nb_inserted` is the cumulative insertion counter,
logged as "nb total insertion"). -/
theorem reinit_keeps_nb_inserted :
    (bmorStateAgg.reinit 6 10).nb_inserted = 5 ∧ (5 : ℕ) ≠ 0 :=
  ⟨rfl, by decide⟩

/-- C5 amended: `reinit(li, phase_cost_upper)` increments `phase`, sets
`li` and `phase_cost_upper` to the given values, clears the registry, and
zeroes `absolute_weight` and `total_cost`, while leaving `nb_inserted`,
`oneplogn` and `facility_bound` unchanged. -/
theorem reinit_spec {T : Type} (st : BmorState T) (li pcu : ℚ) :
    (st.reinit li pcu).phase = st.phase + 1 ∧
    (st.reinit li pcu).li = li ∧
    (st.reinit li pcu).phase_cost_upper = pcu ∧
    (st.reinit li pcu).centers.centers = [] ∧
    (st.reinit li pcu).absolute_weight = 0 ∧
    (st.reinit li pcu).total_cost = 0 ∧
    (st.reinit li pcu).nb_inserted = st.nb_inserted ∧
    (st.reinit li pcu).oneplogn = st.oneplogn ∧
    (st.reinit li pcu).facility_bound = st.facility_bound :=
  ⟨rfl, rfl, rfl, rfl, rfl, rfl, rfl, rfl, rfl⟩

/-- C7: at BMOR construction, `facility_bound = ⌊γ·(1+⌊log₂ n⌋)·k⌋`, the
initial phase cost ceiling is `γ`, the initial cost scale `L` is 1, and
`oneplogn = (1+⌊log₂ n⌋)·k`.  (`n ≥ 1` because `ilog2` requires it; the
`trunc` of the source agrees with the floor because `γ ≥ 0`.) -/
theorem init_state_constants {T : Type} (b : Bmor T)
    (hn : 1 ≤ b.nbdata_expected) (hg : 0 ≤ b.gamma) :
    b.init_state.facility_bound =
      (⌊b.gamma * (1 + (Nat.log2 b.nbdata_expected : ℚ)) * (b.k : ℚ)⌋).toNat ∧
    b.init_state.phase_cost_upper = b.gamma ∧
    b.init_state.li = 1 ∧
    b.init_state.oneplogn = (1 + Nat.log2 b.nbdata_expected) * b.k := by
  refine ⟨?_, rfl, rfl, rfl⟩
  have hq : 0 ≤ b.gamma * (1 + (Nat.log2 b.nbdata_expected : ℚ)) * (b.k : ℚ) := by
    positivity
  show usizeOfInt (f64trunc _) = _
  unfold usizeOfInt f64trunc
  rw [if_pos hq]

/-- Closed witness for `init_state_constants` at `k = 2`, `n = 10`,
`β = 2`, `γ = 3/2`. -/
theorem init_state_constants_witness :
    (Bmor.new 2 10 2 (3 / 2) dQ).init_state.li = 1 ∧
    (Bmor.new 2 10 2 (3 / 2) dQ).init_state.phase_cost_upper = 3 / 2 := by
  have h := init_state_constants (Bmor.new 2 10 2 (3 / 2) dQ)
    (by decide) (by norm_num [Bmor.new])
  exact ⟨h.2.2.1, h.2.1⟩

/-- Invariant of the scan loop of `get_nearest_facility`: starting from
accumulator `(d, r)` with `r ≤ i`, the final accumulator's distance is a
lower bound of `d` and of every scanned distance; it is either the
initial accumulator or comes from a scanned facility; every scanned
facility at distance `≤` the final distance was accepted, so its index
bounds the final rank from below; and the rank never decreases. -/
theorem scanNearest_spec {T : Type} (distf : List T → List T → ℚ)
    (data : List T) (l : List (Facility T)) :
    ∀ (i : ℕ) (d : ℚ) (r : ℕ), r ≤ i →
      (scanNearest distf data l i (d, r)).1 ≤ d ∧
      (∀ k f, l.get? k = some f →
        (scanNearest distf data l i (d, r)).1 ≤ distf f.center data) ∧
      (scanNearest distf data l i (d, r) = (d, r) ∨
        ∃ k f, l.get? k = some f ∧
          (scanNearest distf data l i (d, r)).2 = i + k ∧
          (scanNearest distf data l i (d, r)).1 = distf f.center data) ∧
      (∀ k f, l.get? k = some f →
        distf f.center data ≤ (scanNearest distf data l i (d, r)).1 →
        i + k ≤ (scanNearest distf data l i (d, r)).2) ∧
      r ≤ (scanNearest distf data l i (d, r)).2 := by
  induction l with
  | nil =>
      intro i d r hr
      simp only [scanNearest]
      refine ⟨le_refl d, ?_, Or.inl trivial, ?_, le_refl r⟩
      · intro k f hk
        simp at hk
      · intro k f hk
        simp at hk
  | cons g rest ih =>
      intro i d r hr
      by_cases hle : distf g.center data ≤ d
      · have hscan : scanNearest distf data (g :: rest) i (d, r) =
            scanNearest distf data rest (i + 1) (distf g.center data, i) := by
          simp [scanNearest, hle]
        obtain ⟨h1, h2, h3, h4, h5⟩ :=
          ih (i + 1) (distf g.center data) i (Nat.le_succ i)
        rw [hscan]
        refine ⟨h1.trans hle, ?_, ?_, ?_, hr.trans h5⟩
        · intro k f hk
          cases k with
          | zero =>
              cases hk
              exact h1
          | succ k => exact h2 k f hk
        · rcases h3 with heq | ⟨k, f, hk, h32, h31⟩
          · refine Or.inr ⟨0, g, rfl, ?_, ?_⟩
            · rw [heq]
              rfl
            · rw [heq]
          · refine Or.inr ⟨k + 1, f, hk, ?_, h31⟩
            rw [h32]
            omega
        · intro k f hk hdk
          cases k with
          | zero =>
              have : i ≤ (scanNearest distf data rest (i + 1)
                  (distf g.center data, i)).2 := h5
              omega
          | succ k =>
              have := h4 k f hk hdk
              omega
      · have hscan : scanNearest distf data (g :: rest) i (d, r) =
            scanNearest distf data rest (i + 1) (d, r) := by
          simp [scanNearest, hle]
        obtain ⟨h1, h2, h3, h4, h5⟩ :=
          ih (i + 1) d r (hr.trans (Nat.le_succ i))
        rw [hscan]
        refine ⟨h1, ?_, ?_, ?_, h5⟩
        · intro k f hk
          cases k with
          | zero =>
              cases hk
              exact le_of_lt (lt_of_le_of_lt h1 (not_le.mp hle))
          | succ k => exact h2 k f hk
        · rcases h3 with heq | ⟨k, f, hk, h32, h31⟩
          · exact Or.inl heq
          · refine Or.inr ⟨k + 1, f, hk, ?_, h31⟩
            rw [h32]
            omega
        · intro k f hk hdk
          cases k with
          | zero =>
              cases hk
              exact absurd (hdk.trans h1) hle
          | succ k =>
              have := h4 k f hk hdk
              omega

/-- C2 counterexample: on `tieFs` — two facilities, both at distance 0
from the query point — `get_nearest_facility` returns rank 1, although
rank 0 attains the same minimal distance.  The comparison against the
running minimum is `<=` (facility.rs line 182), so the *last* tied
facility wins, not the first as the claim states. -/
theorem nearest_tie_last_wins :
    tieFs.get_nearest_facility [(0 : ℚ)] = Except.ok (1, 0) ∧
    tieFs.distance (Facility.new 0 [(0 : ℚ)]).center [(0 : ℚ)] = 0 ∧
    (1 : ℕ) ≠ 0 := by
  refine ⟨?_, ?_, by decide⟩
  · norm_num [tieFs, Facilities.get_nearest_facility, scanNearest,
      Facility.new, dQ, qabs]
  · norm_num [tieFs, Facility.new, dQ, qabs]

/-- C2 amended: `get_nearest_facility` on a non-empty registry returns a
rank `r` and distance `d` such that `d` is the minimum facility distance
to the query, facility `r` attains it, and `r` is the **largest** rank
among the facilities attaining it (the `<=` comparison lets the last tie
win). -/
theorem get_nearest_facility_last_min {T : Type} (fs : Facilities T)
    (data : List T) (hne : fs.centers ≠ []) :
    ∃ r d, fs.get_nearest_facility data = Except.ok (r, d) ∧
      (∀ j f, fs.centers.get? j = some f → d ≤ fs.distance f.center data) ∧
      (∃ f, fs.centers.get? r = some f ∧ fs.distance f.center data = d) ∧
      (∀ j f, fs.centers.get? j = some f →
        fs.distance f.center data = d → j ≤ r) := by
  obtain ⟨c, rest, hc⟩ := List.exists_cons_of_ne_nil hne
  have hg : fs.get_nearest_facility data =
      Except.ok ((scanNearest fs.distance data rest 1
          (fs.distance c.center data, 0)).2,
        (scanNearest fs.distance data rest 1
          (fs.distance c.center data, 0)).1) := by
    unfold Facilities.get_nearest_facility
    rw [hc]
  obtain ⟨h1, h2, h3, h4, _⟩ := scanNearest_spec fs.distance data rest 1
    (fs.distance c.center data) 0 (Nat.zero_le 1)
  refine ⟨_, _, hg, ?_, ?_, ?_⟩
  · intro j f hj
    rw [hc] at hj
    cases j with
    | zero =>
        cases hj
        exact h1
    | succ j => exact h2 j f hj
  · rcases h3 with heq | ⟨k, f, hk, h32, h31⟩
    · refine ⟨c, ?_, ?_⟩
      · rw [hc, heq]
        rfl
      · rw [heq]
    · refine ⟨f, ?_, h31.symm⟩
      rw [hc, h32, Nat.add_comm]
      exact hk
  · intro j f hj heq
    rw [hc] at hj
    cases j with
    | zero => exact Nat.zero_le _
    | succ j =>
        have := h4 j f hj (le_of_eq heq)
        omega

/-- Closed witness for `get_nearest_facility_last_min` on `tieFs`. -/
theorem get_nearest_facility_last_min_witness :
    ∃ r d, tieFs.get_nearest_facility [(0 : ℚ)] = Except.ok (r, d) ∧
      (∀ j f, tieFs.centers.get? j = some f →
        d ≤ tieFs.distance f.center [(0 : ℚ)]) ∧
      (∃ f, tieFs.centers.get? r = some f ∧
        tieFs.distance f.center [(0 : ℚ)] = d) ∧
      (∀ j f, tieFs.centers.get? j = some f →
        tieFs.distance f.center [(0 : ℚ)] = d → j ≤ r) :=
  get_nearest_facility_last_min tieFs [(0 : ℚ)] (by simp [tieFs])

/-- Helper: on a non-empty registry the nearest-facility search returns
`Ok`. -/
theorem gnf_ok_of_ne_nil {T : Type} (fs : Facilities T) (data : List T)
    (hne : fs.centers ≠ []) :
    ∃ r d, fs.get_nearest_facility data = Except.ok (r, d) := by
  obtain ⟨c, rest, hc⟩ := List.exists_cons_of_ne_nil hne
  unfold Facilities.get_nearest_facility
  rw [hc]
  exact ⟨_, _, rfl⟩

/-- Helper: the rank returned by the nearest-facility search is a valid
index into the registry. -/
theorem gnf_rank_lt {T : Type} (fs : Facilities T) (data : List T)
    (r : ℕ) (d : ℚ)
    (h : fs.get_nearest_facility data = Except.ok (r, d)) :
    r < fs.centers.length := by
  unfold Facilities.get_nearest_facility at h
  cases hc : fs.centers with
  | nil =>
      rw [hc] at h
      cases h
  | cons c rest =>
      rw [hc] at h
      simp only [Except.ok.injEq, Prod.mk.injEq] at h
      obtain ⟨hr2, _⟩ := h
      obtain ⟨_, _, h3, _, _⟩ := scanNearest_spec fs.distance data rest 1
        (fs.distance c.center data) 0 (Nat.zero_le 1)
      rcases h3 with heq | ⟨k, f, hk, h32, _⟩
      · have hr0 : r = 0 := by rw [← hr2, heq]
        rw [hr0]
        exact Nat.succ_pos _
      · obtain ⟨hklt, _⟩ := List.get?_eq_some.mp hk
        have : r = 1 + k := by rw [← hr2, h32]
        simp only [List.length_cons]
        omega

/-- C6: on a non-empty registry, the per-point BMOR update returns
`false` if and only if, after applying the update, the running cost
exceeds `phase_cost_upper` or the registry size exceeds
`facility_bound`; in every other case it returns `true`. -/
theorem update_false_iff {T : Type} (st : BmorState T) (u : ℚ)
    (rank_id : ℕ) (point : List T) (weight : ℚ)
    (hne : st.centers.centers ≠ []) :
    ∃ st2 b, st.update u rank_id point weight = some (st2, b) ∧
      (b = false ↔ (st2.total_cost > st2.phase_cost_upper ∨
        st2.centers.len > st2.facility_bound)) := by
  obtain ⟨r, d, hok⟩ := gnf_ok_of_ne_nil st.centers point hne
  have hlen : ¬st.centers.len = 0 := by
    unfold Facilities.len
    intro h0
    exact hne (List.length_eq_zero.mp h0)
  unfold BmorState.update BmorState.get_nearest_center
  rw [if_neg hlen, hok]
  dsimp only
  split
  · split
    · next hP => exact ⟨_, false, rfl, by simpa using hP⟩
    · next hP => exact ⟨_, true, rfl, by simpa using hP⟩
  · split
    · next hP => exact ⟨_, false, rfl, by simpa using hP⟩
    · next hP => exact ⟨_, true, rfl, by simpa using hP⟩

/-- Closed witness for `update_false_iff` on a concrete one-facility
state. -/
theorem update_false_iff_witness :
    ∃ st2 b, bmorStateOne.update 0 7 [(2 : ℚ)] 1 = some (st2, b) ∧
      (b = false ↔ (st2.total_cost > st2.phase_cost_upper ∨
        st2.centers.len > st2.facility_bound)) :=
  update_false_iff bmorStateOne 0 7 [(2 : ℚ)] 1 (by simp [bmorStateOne])

/-- C1 (evaluation of the defect): `bmorStateOne` holds one facility at
`[0]` with `oneplogn = 1`, `li = 1`.  Updating with point `[2]`, weight 1
and uniform draw `u = 0 < (1·2·1)/1` opens a new facility at `[2]` — and
that facility is created by `insert(weight, dist_to_nearest)`
(bmor.rs line 140), so its cost is `dist_to_nearest · weight = 2`, not 0
as the the spec (and `Facility::get_cost`'s own documentation, which
makes the cost of a facility the weighted distances of its own points)
requires. -/
theorem update_new_facility_cost :
    bmorStateOne.update 0 7 [(2 : ℚ)] 1 =
      some ({ bmorStateOne with
                centers := Facilities.mk
                  [Facility.new 0 [0], Facility.mk 7 [2] 1 2] dQ
                absolute_weight := 1
                nb_inserted := 1 }, true) ∧
    (Facility.mk 7 [(2 : ℚ)] 1 2).cost ≠ 0 := by
  constructor
  · norm_num [bmorStateOne, BmorState.update, BmorState.get_nearest_center,
      Facilities.get_nearest_facility, Facilities.len, Facilities.insert,
      scanNearest, Facility.new, Facility.insert, qabs, dQ]
  · norm_num [Facility.cost]

/-- C3 (evaluation of the defect): `swapFs` holds facilities at `[10]`
and `[0]`; the points are `[0]` (label 0) and `[10]` (label 1), with
weights `[5, 7]`.  Point 0's nearest facility has rank 1, and
`dispatch_labels` reads the weight as `weights[itemf] = weights[1] = 7`
(facility.rs line 289) instead of `weights[0] = 5`, so the facility
weights come out as `[5, 7]` where the claimed `dispatch` semantics
(`weights[i]` of the point itself) would give `[7, 5]`. -/
theorem dispatch_labels_weight_eval :
    swapFs.dispatch_labels [[(0 : ℚ)], [10]] [0, 1] (some [5, 7]) =
      some (Facilities.mk [Facility.mk 0 [10] 5 0, Facility.mk 1 [0] 7 0] dQ,
        [[(1, 1)], [(0, 1)]]) ∧
    ([5, 7] : List ℚ) ≠ [7, 5] := by
  constructor
  · norm_num [swapFs, Facilities.dispatch_labels, dispatchLabelsGo,
      resetCounters, weightAt, bumpLabel, modifyAt,
      Facilities.get_nearest_facility, scanNearest, Facility.new,
      Facility.insert, dQ, qabs, List.range_succ]
  · norm_num

/-- Helper: `modifyAt` preserves the length of the list. -/
theorem modifyAt_length {α : Type} (g : α → α) :
    ∀ (l : List α) (n : ℕ), (modifyAt g l n).length = l.length
  | [], _ => rfl
  | _ :: l, 0 => rfl
  | a :: l, n + 1 => by
      simp only [modifyAt, List.length_cons]
      rw [modifyAt_length g l n]

/-- Helper: if `g` shifts the measured quantity of every element by `δ`,
then modifying the element at an in-range index shifts the mapped sum
by `δ`. -/
theorem modifyAt_map_sum {α : Type} (g : α → α) (fm : α → ℚ) (δ : ℚ)
    (hg : ∀ a, fm (g a) = fm a + δ) :
    ∀ (l : List α) (n : ℕ), n < l.length →
      ((modifyAt g l n).map fm).sum = (l.map fm).sum + δ
  | [], n, hn => absurd hn (by simp)
  | a :: l, 0, _ => by
      simp only [modifyAt, List.map_cons, List.sum_cons, hg a]
      ring
  | a :: l, n + 1, hn => by
      simp only [modifyAt, List.map_cons, List.sum_cons]
      rw [modifyAt_map_sum g fm δ hg l n (by simpa using hn)]
      ring

/-- Helper: reading a list back through `getD` over its index range. -/
theorem map_getD_range (ws : List ℚ) :
    (List.range ws.length).map (fun i => ws.getD i 0) = ws := by
  induction ws with
  | nil => rfl
  | cons a t ih =>
      rw [List.length_cons, List.range_succ_eq_map, List.map_cons,
        List.map_map]
      have : ((fun i => (a :: t).getD i 0) ∘ Nat.succ) =
          (fun i => t.getD i 0) := rfl
      rw [this, ih]
      rfl

/-- Invariant of the `dispatch_data` point loop: processing any list of
in-range point indices on a non-empty registry succeeds, preserves the
number of facilities, and adds exactly the dispatched weights to the
total facility weight. -/
theorem dispatchDataGo_spec {T : Type} (data : List (List T))
    (weights : Option (List ℚ))
    (hw : ∀ ws, weights = some ws → ws.length = data.length) :
    ∀ (items : List ℕ) (fs : Facilities T),
      fs.centers ≠ [] →
      (∀ i ∈ items, i < data.length) →
      ∃ fs1, dispatchDataGo data weights items fs = some fs1 ∧
        fs1.centers.length = fs.centers.length ∧
        (fs1.centers.map Facility.weight).sum =
          (fs.centers.map Facility.weight).sum +
            (items.map (fun i => (weightAt weights i).getD 0)).sum := by
  intro items
  induction items with
  | nil =>
      intro fs hne _
      exact ⟨fs, rfl, rfl, by simp⟩
  | cons i items ih =>
      intro fs hne hbd
      have hi : i < data.length := hbd i (List.mem_cons_self i items)
      obtain ⟨p, hp⟩ : ∃ p, data.get? i = some p :=
        ⟨_, List.get?_eq_get hi⟩
      obtain ⟨r, d, hok⟩ := gnf_ok_of_ne_nil fs p hne
      have hr : r < fs.centers.length := gnf_rank_lt fs p r d hok
      obtain ⟨w, hwa⟩ : ∃ w, weightAt weights i = some w := by
        cases hws : weights with
        | none => exact ⟨1, rfl⟩
        | some ws =>
            have hiw : i < ws.length := by
              rw [hw ws hws]
              exact hi
            exact ⟨_, List.get?_eq_get hiw⟩
      have hgw : ∀ f : Facility T,
          (f.insert w d).weight = f.weight + w := fun f => rfl
      obtain ⟨fs1, hgo, hlen1, hsum1⟩ :=
        ih { fs with centers := modifyAt (fun f => f.insert w d) fs.centers r }
          (by
            intro h0
            have hml := modifyAt_length (fun f : Facility T => f.insert w d)
              fs.centers r
            have h0' : modifyAt (fun f : Facility T => f.insert w d)
                fs.centers r = [] := h0
            rw [h0'] at hml
            exact hne (List.length_eq_zero.mp hml.symm))
          (fun j hj => hbd j (List.mem_cons_of_mem i hj))
      refine ⟨fs1, ?_, ?_, ?_⟩
      · simp only [dispatchDataGo, hp, hok, hwa]
        exact hgo
      · rw [hlen1]
        exact modifyAt_length _ fs.centers r
      · rw [hsum1]
        have hstep := modifyAt_map_sum (fun f : Facility T => f.insert w d)
          Facility.weight w hgw fs.centers r hr
        simp only at hstep
        rw [hstep, List.map_cons, List.sum_cons, hwa]
        simp only [Option.getD_some]
        ring

/-- C4: on a non-empty registry (and weights matching the data length
when given), `dispatch_data` succeeds; the returned global cost is the
sum of the per-facility costs, and the per-facility weights sum to the
total input weight (absent weights counting as 1). -/
theorem dispatch_data_spec {T : Type} (fs : Facilities T)
    (data : List (List T)) (weights : Option (List ℚ))
    (hne : fs.centers ≠ [])
    (hw : ∀ ws, weights = some ws → ws.length = data.length) :
    ∃ gc fs1, fs.dispatch_data data weights = some (gc, fs1) ∧
      gc = (fs1.centers.map Facility.cost).sum ∧
      (fs1.centers.map Facility.weight).sum =
        inputWeightSum weights data.length := by
  have hne0 : (resetCounters fs).centers ≠ [] := by
    simp only [resetCounters]
    intro h0
    exact hne (List.map_eq_nil.mp h0)
  have hbd : ∀ i ∈ List.range data.length, i < data.length := by
    intro i hi
    exact List.mem_range.mp hi
  obtain ⟨fs1, hgo, _, hsum⟩ := dispatchDataGo_spec data weights hw
    (List.range data.length) (resetCounters fs) hne0 hbd
  have hreset : ((resetCounters fs).centers.map Facility.weight).sum = 0 := by
    simp only [resetCounters, List.map_map]
    rw [show (Facility.weight ∘ fun f : Facility T =>
      { f with cost := 0, weight := 0 }) = (fun _ => (0 : ℚ)) from rfl]
    simp
  cases hws : weights with
  | none =>
      rw [hws] at hgo
      refine ⟨(fs1.centers.map Facility.cost).sum, fs1, ?_, rfl, ?_⟩
      · simp only [Facilities.dispatch_data, hws, hgo]
      · rw [hws] at hsum
        rw [hsum, hreset]
        simp [weightAt, inputWeightSum, List.map_const']
  | some ws =>
      have hlen' := hw ws hws
      rw [hws] at hgo
      refine ⟨(fs1.centers.map Facility.cost).sum, fs1, ?_, rfl, ?_⟩
      · simp only [Facilities.dispatch_data, hws, if_pos hlen', hgo]
      · rw [hws] at hsum
        rw [hsum, hreset]
        have hmap : (List.range data.length).map
            (fun i => (weightAt (some ws) i).getD 0) = ws := by
          rw [← hlen']
          rw [show (fun i => (weightAt (some ws) i).getD 0) =
            (fun i => ws.getD i 0) from rfl]
          exact map_getD_range ws
        rw [hmap]
        simp [inputWeightSum]

/-- Closed witness for `dispatch_data_spec` on a concrete two-facility
registry, two points and explicit weights. -/
theorem dispatch_data_spec_witness :
    ∃ gc fs1, tieFs.dispatch_data [[(0 : ℚ)], [5]] (some [2, 3]) =
        some (gc, fs1) ∧
      gc = (fs1.centers.map Facility.cost).sum ∧
      (fs1.centers.map Facility.weight).sum =
        inputWeightSum (some [2, 3]) [[(0 : ℚ)], [5]].length :=
  dispatch_data_spec tieFs [[(0 : ℚ)], [5]] (some [2, 3])
    (by simp [tieFs]) (fun ws h => by cases h; rfl)

/-- Helper: when the anchor's stream holds at least `nb` accepted draws
and `nb ≥ 2`, `explore` returns `(m1, m2)` where `m1` is the minimum of
the collected distances (the first nearest-neighbor distance) and `m2`
is the minimum after removing one copy of `m1` (the second
nearest-neighbor distance). -/
theorem explore_spec {T : Type} (distf : List T → List T → ℚ)
    (data : List (List T)) (nb i : ℕ) (draws : List ℕ)
    (hlen : nb ≤ ((draws.filter (fun j => j != i)).length))
    (h2 : 2 ≤ nb) :
    ∃ m1 m2, explore distf data nb i draws = some (m1, m2) ∧
      (anchorDists distf data i (anchorSamples i draws nb)).minimum =
        (m1 : WithTop ℚ) ∧
      ((anchorDists distf data i (anchorSamples i draws nb)).erase
        m1).minimum = (m2 : WithTop ℚ) := by
  have hdlen : (anchorDists distf data i (anchorSamples i draws nb)).length
      = nb := by
    simp only [anchorDists, List.length_map, anchorSamples,
      List.length_take]
    exact Nat.min_eq_left hlen
  have hperm := List.perm_insertionSort (· ≤ ·)
    (anchorDists distf data i (anchorSamples i draws nb))
  have hsort := List.sorted_insertionSort (· ≤ ·)
    (anchorDists distf data i (anchorSamples i draws nb))
  have hslen : ((anchorDists distf data i
      (anchorSamples i draws nb)).insertionSort (· ≤ ·)).length = nb := by
    rw [hperm.length_eq, hdlen]
  cases hs : (anchorDists distf data i
      (anchorSamples i draws nb)).insertionSort (· ≤ ·) with
  | nil =>
      rw [hs] at hslen
      simp at hslen
      omega
  | cons d0 tl =>
      cases htl : tl with
      | nil =>
          rw [hs, htl] at hslen
          simp at hslen
          omega
      | cons d1 rest =>
          subst htl
          rw [hs] at hperm hsort
          obtain ⟨h01, hstl⟩ := List.sorted_cons.mp hsort
          obtain ⟨h1r, _⟩ := List.sorted_cons.mp hstl
          refine ⟨d0, d1, ?_, ?_, ?_⟩
          · show (match (anchorDists distf data i
                (anchorSamples i draws nb)).insertionSort (· ≤ ·) with
              | d0 :: d1 :: _ => some (d0, d1)
              | _ => none) = some (d0, d1)
            rw [hs]
          · rw [List.minimum_eq_coe_iff]
            refine ⟨hperm.subset (List.mem_cons_self _ _), ?_⟩
            intro a ha
            rcases List.mem_cons.mp (hperm.mem_iff.mpr ha) with heq | hmem
            · rw [heq]
            · exact h01 a hmem
          · have hePerm := hperm.erase d0
            rw [List.erase_cons_head] at hePerm
            rw [List.minimum_eq_coe_iff]
            refine ⟨hePerm.subset (List.mem_cons_self _ _), ?_⟩
            intro a ha
            rcases List.mem_cons.mp (hePerm.mem_iff.mpr ha) with heq | hmem
            · rw [heq]
            · exact h1r a hmem

/-- Helper: a loop whose every iteration succeeds collects the list of
per-iteration results, preserving length and positions. -/
theorem collectSome_spec {α β : Type} (f : α → Option β) :
    ∀ (xs : List α), (∀ x ∈ xs, ∃ y, f x = some y) →
      ∃ l, collectSome f xs = some l ∧ l.length = xs.length ∧
        ∀ k x, xs.get? k = some x → l.get? k = f x := by
  intro xs
  induction xs with
  | nil =>
      intro _
      refine ⟨[], rfl, rfl, ?_⟩
      intro k x hk
      simp at hk
  | cons x xs ih =>
      intro h
      obtain ⟨y, hy⟩ := h x (List.mem_cons_self _ _)
      obtain ⟨l, hl, hlen, hget⟩ :=
        ih (fun z hz => h z (List.mem_cons_of_mem _ hz))
      refine ⟨y :: l, ?_, by simp [hlen], ?_⟩
      · simp only [collectSome, hy, hl]
      · intro k z hk
        cases k with
        | zero =>
            have hz : z = x := by
              have : some x = some z := hk
              injection this with h'
              exact h'.symm
            rw [hz]
            exact hy.symm ▸ rfl
        | succ k => exact hget k z hk

/-- C8 counterexample: on five points the estimator processes
`⌊√5⌋ = 2` anchors (the claim says `⌈√5⌉ = 3`): the returned sketch of
second-nearest distances has exactly 2 entries. -/
theorem neighborhood_floor_sqrt_anchors :
    get_neighborhood_size dQ scaleData scaleStreams = some [2, 1] ∧
    ([2, 1] : List ℚ).length = 2 ∧
    specCeilSqrt scaleData.length = 3 ∧
    (2 : ℕ) ≠ 3 := by
  have h5 : Nat.sqrt scaleData.length = 2 := by
    simp [scaleData, Nat.sqrt, Nat.sqrt.iter]
  refine ⟨?_, by decide, ?_, by decide⟩
  · have hshape : get_neighborhood_size dQ scaleData scaleStreams =
        match collectSome
          (fun i => explore dQ scaleData (Nat.sqrt scaleData.length) i
            (scaleStreams i)) (List.range (Nat.sqrt scaleData.length)) with
        | none => none
        | some dist_2 => some (List.map Prod.snd dist_2) := rfl
    rw [hshape, h5]
    norm_num [scaleData, scaleStreams, collectSome, explore, anchorDists,
      anchorSamples, dQ, qabs, List.insertionSort, List.orderedInsert,
      List.range_succ]
  · simp [specCeilSqrt, h5]
    norm_num [scaleData]

/-- C8 amended: the estimator uses `⌊√n⌋` anchors — the data points of
index `0..⌊√n⌋` — and for each anchor computes the first and second
nearest-neighbor distances among `⌊√n⌋` random draws distinct from the
anchor; it returns the sketch of the second-nearest distances (entry `k`
is the minimum of anchor `k`'s distance multiset after one copy of its
minimum is removed). -/
theorem get_neighborhood_size_spec {T : Type} (distf : List T → List T → ℚ)
    (data : List (List T)) (streams : ℕ → List ℕ)
    (hlen : ∀ i, i < Nat.sqrt data.length →
      Nat.sqrt data.length ≤
        (((streams i).filter (fun j => j != i)).length))
    (h2 : 2 ≤ Nat.sqrt data.length) :
    ∃ l, get_neighborhood_size distf data streams = some l ∧
      l.length = Nat.sqrt data.length ∧
      ∀ k, k < Nat.sqrt data.length →
        ∃ m1 m2,
          explore distf data (Nat.sqrt data.length) k (streams k) =
            some (m1, m2) ∧
          (anchorDists distf data k
              (anchorSamples k (streams k) (Nat.sqrt data.length))).minimum
            = (m1 : WithTop ℚ) ∧
          ((anchorDists distf data k
              (anchorSamples k (streams k) (Nat.sqrt data.length))).erase
            m1).minimum = (m2 : WithTop ℚ) ∧
          l.get? k = some m2 := by
  have hall : ∀ x ∈ List.range (Nat.sqrt data.length),
      ∃ y, explore distf data (Nat.sqrt data.length) x (streams x) =
        some y := by
    intro x hx
    obtain ⟨m1, m2, he, _, _⟩ := explore_spec distf data
      (Nat.sqrt data.length) x (streams x)
      (hlen x (List.mem_range.mp hx)) h2
    exact ⟨(m1, m2), he⟩
  obtain ⟨l0, hc, hlen0, hget0⟩ := collectSome_spec
    (fun x => explore distf data (Nat.sqrt data.length) x (streams x))
    (List.range (Nat.sqrt data.length)) hall
  refine ⟨l0.map Prod.snd, ?_, by simp [hlen0], ?_⟩
  · show (match collectSome
        (fun i => explore distf data (Nat.sqrt data.length) i (streams i))
        (List.range (Nat.sqrt data.length)) with
      | none => none
      | some dist_2 => some (List.map Prod.snd dist_2)) =
      some (List.map Prod.snd l0)
    rw [hc]
  · intro k hk
    obtain ⟨m1, m2, he, hm1, hm2⟩ := explore_spec distf data
      (Nat.sqrt data.length) k (streams k) (hlen k hk) h2
    refine ⟨m1, m2, he, hm1, hm2, ?_⟩
    have hg : l0.get? k = some (m1, m2) := by
      have hr := hget0 k k (List.get?_range hk)
      rw [hr, he]
    rw [List.get?_map, hg]
    rfl

/-- Closed witness for `get_neighborhood_size_spec` on `scaleData` and
`scaleStreams`. -/
theorem get_neighborhood_size_spec_witness :
    ∃ l, get_neighborhood_size dQ scaleData scaleStreams = some l ∧
      l.length = Nat.sqrt scaleData.length ∧
      ∀ k, k < Nat.sqrt scaleData.length →
        ∃ m1 m2,
          explore dQ scaleData (Nat.sqrt scaleData.length) k
            (scaleStreams k) = some (m1, m2) ∧
          (anchorDists dQ scaleData k
              (anchorSamples k (scaleStreams k)
                (Nat.sqrt scaleData.length))).minimum = (m1 : WithTop ℚ) ∧
          ((anchorDists dQ scaleData k
              (anchorSamples k (scaleStreams k)
                (Nat.sqrt scaleData.length))).erase m1).minimum =
            (m2 : WithTop ℚ) ∧
          l.get? k = some m2 :=
  get_neighborhood_size_spec dQ scaleData scaleStreams
    (by
      intro i hi
      have h5 : Nat.sqrt scaleData.length = 2 := by
        simp [scaleData, Nat.sqrt, Nat.sqrt.iter]
      rw [h5] at hi ⊢
      interval_cases i
      · decide
      · decide)
    (by
      have h5 : Nat.sqrt scaleData.length = 2 := by
        simp [scaleData, Nat.sqrt, Nat.sqrt.iter]
      rw [h5])

end Coreset
